import Mathlib

/-!
Verification model of the cai-agent repository.

The repository contains two near-identical Next.js GET handlers
(`src/frontend/app/api/connection-details/route.ts` and the unnamed variant
`src/unnamed/part_001`) that mint LiveKit access tokens, a helper
`getLiveKitURL`, and two styling variants of a `Dropdown` React component
(`src/frontend/components/Dropdown.tsx` and `src/unnamed/part_000`).

The handlers call the JavaScript built-ins `JSON.parse` and `JSON.stringify`.
We model these built-ins with an executable JSON parser and printer over an
inductive value type `Js`.  Fidelity notes for the model of the built-ins:
  * numbers are modelled as integers (the metadata logic of the repository never
    depends on fractional values; fraction/exponent syntax is not modelled);
  * the parser accepts raw control characters inside string literals and the
    printer emits them raw (real `JSON.parse` demands `\u` escapes for them;
    the printer escapes exactly `"` and `\`, which is what matters for the
    strings the handlers can produce);
  * parsing is fuel-bounded by the input length, which suffices for the
    nesting depths reachable at that length.
None of the claims depends on inputs where these modelling choices differ
from the JavaScript built-ins: every claim is about which branch of the
handler runs as a function of the parse outcome and what the branch does.
-/

/-- JSON values as produced by `JSON.parse`. -/
inductive Js where
  | null
  | bool (b : Bool)
  | num (n : Int)
  | str (s : String)
  | arr (elems : List Js)
  | obj (fields : List (String × Js))

/-- Whitespace characters skipped by the JSON parser. -/
def isWsChar (c : Char) : Bool :=
  c = ' ' || c = '\t' || c = '\n' || c = '\r'

/-- Drop leading JSON whitespace. -/
def skipWs : List Char → List Char
  | [] => []
  | c :: cs => if isWsChar c then skipWs cs else c :: cs

/-- Value of a hexadecimal digit, for `\uXXXX` escapes. -/
def hexVal (c : Char) : Option Nat :=
  if '0' ≤ c ∧ c ≤ '9' then some (c.toNat - 48)
  else if 'a' ≤ c ∧ c ≤ 'f' then some (c.toNat - 87)
  else if 'A' ≤ c ∧ c ≤ 'F' then some (c.toNat - 55)
  else none

/-- Single-character JSON string escapes. -/
def unescapeChar (c : Char) : Option Char :=
  if c = '"' then some '"'
  else if c = '\\' then some '\\'
  else if c = '/' then some '/'
  else if c = 'b' then some (Char.ofNat 8)
  else if c = 'f' then some (Char.ofNat 12)
  else if c = 'n' then some '\n'
  else if c = 'r' then some '\r'
  else if c = 't' then some '\t'
  else none

/-- Parse the body of a JSON string literal (after the opening quote) up to and
including the closing quote, returning the decoded characters and the rest of
the input.  Fuel-bounded; one unit of fuel is spent per decoded character. -/
def parseStringBody : Nat → List Char → Option (List Char × List Char)
  | 0, _ => none
  | Nat.succ f, input =>
    match input with
    | [] => none
    | c :: cs =>
      if c = '"' then some ([], cs)
      else if c = '\\' then
        match cs with
        | [] => none
        | e :: cs2 =>
          match unescapeChar e with
          | some u =>
            match parseStringBody f cs2 with
            | some (content, rest) => some (u :: content, rest)
            | none => none
          | none =>
            if e = 'u' then
              match cs2 with
              | h1 :: h2 :: h3 :: h4 :: cs3 =>
                match hexVal h1, hexVal h2, hexVal h3, hexVal h4 with
                | some a, some b, some c2, some d =>
                  match parseStringBody f cs3 with
                  | some (content, rest) =>
                    some (Char.ofNat (((a * 16 + b) * 16 + c2) * 16 + d) :: content, rest)
                  | none => none
                | _, _, _, _ => none
              | _ => none
            else none
      else
        match parseStringBody f cs with
        | some (content, rest) => some (c :: content, rest)
        | none => none

/-- Take the maximal run of decimal digits from the front of the input. -/
def takeDigits : List Char → List Char × List Char
  | [] => ([], [])
  | c :: cs =>
    if c.isDigit then
      match takeDigits cs with
      | (ds, rest) => (c :: ds, rest)
    else ([], c :: cs)

/-- Decimal value of a digit string. -/
def digitsToNat (ds : List Char) : Nat :=
  ds.foldl (fun a c => a * 10 + (c.toNat - 48)) 0

/-- Overwrite-or-append assignment on the field list of a JavaScript object:
an existing key keeps its position and gets the new value, a new key is
appended at the end (JavaScript property-assignment order). -/
def setKey : List (String × Js) → String → Js → List (String × Js)
  | [], k, v => [(k, v)]
  | (k2, v2) :: rest, k, v =>
    if k2 = k then (k, v) :: rest else (k2, v2) :: setKey rest k v

/-- Build a JavaScript object from parsed members: duplicate keys are
resolved as `JSON.parse` does (last value wins, first position kept). -/
def dedupFields (fs : List (String × Js)) : List (String × Js) :=
  fs.foldl (fun acc kv => setKey acc kv.1 kv.2) []

/-- Parsing mode of the combined JSON parser: a single value, the elements of
a non-empty array (up to and including `]`), or the members of a non-empty
object (up to and including `}`). -/
inductive PMode where
  | value
  | elems
  | membs

/-- Result of the combined JSON parser, tagged by mode. -/
inductive PRes where
  | value (v : Js)
  | elems (vs : List Js)
  | membs (fs : List (String × Js))

/-- Fuel-bounded recursive-descent JSON parser modelling `JSON.parse`.
The three mutually recursive procedures (value, array elements, object
members) are combined into one function, structurally recursive on the fuel,
so that it evaluates by kernel reduction. -/
def parseCore : Nat → PMode → List Char → Option (PRes × List Char)
  | 0, _, _ => none
  | Nat.succ f, PMode.value, input =>
    match skipWs input with
    | [] => none
    | c :: cs =>
      if c = 'n' then
        match cs with
        | 'u' :: 'l' :: 'l' :: rest => some (PRes.value Js.null, rest)
        | _ => none
      else if c = 't' then
        match cs with
        | 'r' :: 'u' :: 'e' :: rest => some (PRes.value (Js.bool true), rest)
        | _ => none
      else if c = 'f' then
        match cs with
        | 'a' :: 'l' :: 's' :: 'e' :: rest => some (PRes.value (Js.bool false), rest)
        | _ => none
      else if c = '"' then
        match parseStringBody f cs with
        | some (content, rest) => some (PRes.value (Js.str (String.mk content)), rest)
        | none => none
      else if c = '-' then
        match takeDigits cs with
        | ([], _) => none
        | (d :: ds, rest) =>
          some (PRes.value (Js.num (-Int.ofNat (digitsToNat (d :: ds)))), rest)
      else if c.isDigit then
        some (PRes.value (Js.num (Int.ofNat (digitsToNat (takeDigits (c :: cs)).1))),
          (takeDigits (c :: cs)).2)
      else if c = '[' then
        match skipWs cs with
        | [] => none
        | c2 :: cs2 =>
          if c2 = ']' then some (PRes.value (Js.arr []), cs2)
          else
            match parseCore f PMode.elems (c2 :: cs2) with
            | some (PRes.elems vs, rest) => some (PRes.value (Js.arr vs), rest)
            | _ => none
      else if c = '\x7b' then
        match skipWs cs with
        | [] => none
        | c2 :: cs2 =>
          if c2 = '\x7d' then some (PRes.value (Js.obj []), cs2)
          else
            match parseCore f PMode.membs (c2 :: cs2) with
            | some (PRes.membs fs, rest) => some (PRes.value (Js.obj (dedupFields fs)), rest)
            | _ => none
      else none
  | Nat.succ f, PMode.elems, input =>
    match parseCore f PMode.value input with
    | some (PRes.value v, rest) =>
      match skipWs rest with
      | [] => none
      | c2 :: rest2 =>
        if c2 = ',' then
          match parseCore f PMode.elems rest2 with
          | some (PRes.elems vs, rest3) => some (PRes.elems (v :: vs), rest3)
          | _ => none
        else if c2 = ']' then some (PRes.elems [v], rest2)
        else none
    | _ => none
  | Nat.succ f, PMode.membs, input =>
    match skipWs input with
    | [] => none
    | c :: cs =>
      if c = '"' then
        match parseStringBody f cs with
        | some (key, rest) =>
          match skipWs rest with
          | [] => none
          | c2 :: rest2 =>
            if c2 = ':' then
              match parseCore f PMode.value rest2 with
              | some (PRes.value v, rest3) =>
                match skipWs rest3 with
                | [] => none
                | c3 :: rest4 =>
                  if c3 = ',' then
                    match parseCore f PMode.membs rest4 with
                    | some (PRes.membs fs, rest5) =>
                      some (PRes.membs ((String.mk key, v) :: fs), rest5)
                    | _ => none
                  else if c3 = '\x7d' then some (PRes.membs [(String.mk key, v)], rest4)
                  else none
              | _ => none
            else none
        | none => none
      else none

/-- Model of `JSON.parse`: parse a whole string as a single JSON value,
requiring that only whitespace remains.  `none` models a thrown
`SyntaxError`. -/
def jsonParse (s : String) : Option Js :=
  match parseCore (s.length + 1) PMode.value s.toList with
  | some (PRes.value v, rest) => if skipWs rest = [] then some v else none
  | _ => none

/-- Character of a decimal digit. -/
def digitChar (d : Nat) : Char := Char.ofNat (48 + d)

/-- Fuel-bounded most-significant-first decimal digit accumulator. -/
def natDigitsFuel : Nat → Nat → List Char → List Char
  | 0, _, acc => acc
  | Nat.succ f, n, acc =>
    if n = 0 then acc else natDigitsFuel f (n / 10) (digitChar (n % 10) :: acc)

/-- Decimal digits of a natural number (at least one digit). -/
def natToDigits (n : Nat) : List Char :=
  if n = 0 then ['0'] else natDigitsFuel (n + 1) n []

/-- Decimal rendering of an integer, as `JSON.stringify` renders it. -/
def printNum (n : Int) : List Char :=
  if n < 0 then '-' :: natToDigits n.natAbs else natToDigits n.natAbs

/-- String-literal escaping as performed by `JSON.stringify` for the quote and
backslash characters (see the fidelity notes above). -/
def escapeChar (c : Char) : List Char :=
  if c = '"' then ['\\', '"']
  else if c = '\\' then ['\\', '\\']
  else [c]

/-- Escape every character of a string body. -/
def escapeChars : List Char → List Char
  | [] => []
  | c :: cs => escapeChar c ++ escapeChars cs

mutual

/-- Characters of the `JSON.stringify` rendering of a value. -/
def printChars : Js → List Char
  | Js.null => ['n', 'u', 'l', 'l']
  | Js.bool true => ['t', 'r', 'u', 'e']
  | Js.bool false => ['f', 'a', 'l', 's', 'e']
  | Js.num n => printNum n
  | Js.str s => '"' :: (escapeChars s.toList ++ ['"'])
  | Js.arr xs => '[' :: (printList xs ++ [']'])
  | Js.obj fs => '\x7b' :: (printMembers fs ++ ['\x7d'])

/-- Comma-separated renderings of array elements. -/
def printList : List Js → List Char
  | [] => []
  | [x] => printChars x
  | x :: y :: xs => printChars x ++ (',' :: printList (y :: xs))

/-- Comma-separated renderings of object members. -/
def printMembers : List (String × Js) → List Char
  | [] => []
  | [(k, v)] => '"' :: (escapeChars k.toList ++ ('"' :: ':' :: printChars v))
  | (k, v) :: p :: fs =>
    ('"' :: (escapeChars k.toList ++ ('"' :: ':' :: printChars v))) ++
      (',' :: printMembers (p :: fs))

end

/-- Model of `JSON.stringify` on JSON-representable values. -/
def stringify (v : Js) : String := String.mk (printChars v)

example : jsonParse ("null") = some Js.null := rfl
example : jsonParse ("") = none := rfl
example : jsonParse ("oops") = none := rfl
example : jsonParse ("[1, 2]") = some (Js.arr [Js.num 1, Js.num 2]) := rfl
example : jsonParse ("\x7b\"a\": -3, \"a\": true\x7d") =
    some (Js.obj [("a", Js.bool true)]) := rfl
example : jsonParse ("\x7b\"selectedPerson\":\"bob\"\x7d") =
    some (Js.obj [("selectedPerson", Js.str ("bob"))]) := rfl
example : stringify (Js.obj [("a", Js.num (-12)), ("b", Js.arr [Js.null])]) =
    "\x7b\"a\":-12,\"b\":[null]\x7d" := rfl
example : jsonParse ("[]") = some (Js.arr []) := rfl
example : stringify (Js.str ("a\"b")) = "\"a\\\"b\"" := rfl

/-- Truthiness of an optional query-parameter string as tested by the
guard `if (!roomName || !participantName)` in the handlers: `null` and the empty
string are falsy. -/
def truthyStr : Option String → Bool
  | none => false
  | some s => s != ""

/-- Truthiness of a JavaScript value as used by the `||` operator in
`parsedMetadata.selectedPerson || participantName`. -/
def jsTruthy : Js → Bool
  | Js.null => false
  | Js.bool b => b
  | Js.num n => decide (n ≠ 0)
  | Js.str s => s != ""
  | Js.arr _ => true
  | Js.obj _ => true

/-- First-match field lookup on the field list of a JavaScript object. -/
def lookupField : List (String × Js) → String → Option Js
  | [], _ => none
  | (k2, v) :: rest, k => if k2 = k then some v else lookupField rest k

/-- Model of the statement
`parsedMetadata.botName = parsedMetadata.selectedPerson || participantName`
from `src/unnamed/part_001` line 24, executed on the result of `JSON.parse`.
The route module is an ES module, hence strict mode: assigning a property to
a primitive (`null`, boolean, number, string) throws a `TypeError`, modelled
as `none` and absorbed by the surrounding `catch`.  On an array the
assignment creates a non-index expando property that `JSON.stringify`
ignores, so the array is forwarded unchanged.  On an object the field is
overwritten or appended. -/
def jsBotNameStep (participantName : String) : Js → Option Js
  | Js.obj fields =>
    let bn :=
      match lookupField fields "selectedPerson" with
      | some x => if jsTruthy x then x else Js.str participantName
      | none => Js.str participantName
    some (Js.obj (setKey fields "botName" bn))
  | Js.arr xs => some (Js.arr xs)
  | _ => none

/-- Default metadata object substituted by the plain variant
(`route.ts` line 34) when `JSON.parse` throws. -/
def defaultMetaA (participantName : String) : Js :=
  Js.obj [("selectedPerson", Js.str participantName)]

/-- Default metadata object substituted by the botName-deriving variant
(`part_001` line 28) when its inner `try` block throws. -/
def defaultMetaB (participantName : String) : Js :=
  Js.obj [("selectedPerson", Js.str participantName), ("botName", Js.str participantName)]

/-- Metadata normalization of the plain variant (`route.ts` lines 30-35):
validate that the raw string parses, keep it unchanged on success, replace it
with the serialized default object on failure. -/
def deriveMetadataA (participantName raw : String) : String :=
  match jsonParse raw with
  | some _ => raw
  | none => stringify (defaultMetaA participantName)

/-- Metadata normalization of the botName-deriving variant (`part_001`
lines 22-29): parse, run the `botName` assignment, re-serialize; any throw in
the `try` block is absorbed by substituting the serialized default object. -/
def deriveMetadataB (participantName raw : String) : String :=
  match jsonParse raw with
  | some v =>
    match jsBotNameStep participantName v with
    | some v2 => stringify v2
    | none => stringify (defaultMetaB participantName)
  | none => stringify (defaultMetaB participantName)

/-- Modelled from the spec: the handlers import `randomString` from
`@/lib/client-utils`, a repository file that is not among the provided
sources.  Per spec §4.1 step 3 it returns a random alphanumeric string of
the requested length; we model it as drawing each character from the
alphanumeric alphabet using a supplied randomness source. -/
def alphanumAlphabet : List Char :=
  "abcdefghijklmnopqrstuvwxyzABCDEFGHIJKLMNOPQRSTUVWXYZ0123456789".toList

/-- Modelled from the spec: see `alphanumAlphabet`. -/
def randomString (rng : Nat → Nat) (n : Nat) : String :=
  String.mk ((List.range n).map (fun i => alphanumAlphabet.getD (rng i % 62) 'a'))

/-- One `VideoGrant` record as passed to `AccessToken.addGrant`. -/
structure VideoGrantModel where
  room : String
  roomJoin : Bool
  canPublish : Bool
  canPublishData : Bool
  canSubscribe : Bool
deriving DecidableEq

/-- The `AccessTokenOptions` record passed to the `AccessToken`
constructor. -/
structure AccessTokenOptionsModel where
  identity : String
  name : String
  metadata : String
deriving DecidableEq

/-- State of a LiveKit `AccessToken` at the moment `toJwt` is called: the
credential request handed to the external signing authority.  Signing itself
is an opaque external operation, so the issued token is modelled by this
request. -/
structure AccessTokenModel where
  apiKey : Option String
  apiSecret : Option String
  userInfo : AccessTokenOptionsModel
  ttl : String
  grants : List VideoGrantModel
deriving DecidableEq

/-- Model of `createParticipantToken` (identical in both variants):
construct the token, set `ttl` to the SDK duration string `"5m"` (five
minutes), add the fixed grant set for the requested room. -/
def createParticipantToken (apiKey apiSecret : Option String)
    (userInfo : AccessTokenOptionsModel) (roomName : String) : AccessTokenModel :=
  { apiKey := apiKey, apiSecret := apiSecret, userInfo := userInfo, ttl := "5m",
    grants := [{ room := roomName, roomJoin := true, canPublish := true,
                 canPublishData := true, canSubscribe := true }] }

/-- The JSON body returned on success. -/
structure ConnectionDetails where
  serverUrl : Option String
  roomName : String
  participantToken : AccessTokenModel
  participantName : String
deriving DecidableEq

/-- Observable outcome of a GET handler invocation: a plain-text error
response, or the success response together with the signing request it
caused.  The external signing call itself (and hence its failure path, the
outer `catch` returning 500) is not modelled. -/
inductive GETResult where
  | errorResponse (status : Nat) (body : String)
  | ok (details : ConnectionDetails)
deriving DecidableEq

/-- Model of `GET` from `src/frontend/app/api/connection-details/route.ts`
(the plain variant).  `env` models `process.env`, `rng` the randomness
source of `randomString`; the three `Option String` arguments model
`searchParams.get` for `roomName`, `participantName` and `metadata`. -/
def GET_A (env : String → Option String) (rng : Nat → Nat)
    (roomNameQ participantNameQ metadataQ : Option String) : GETResult :=
  if truthyStr roomNameQ && truthyStr participantNameQ then
    let roomName := roomNameQ.getD ""
    let participantName := participantNameQ.getD ""
    let metadata := deriveMetadataA participantName (metadataQ.getD "")
    let participantIdentity := participantName ++ "__" ++ randomString rng 4
    GETResult.ok
      { serverUrl := env ("LIVEKIT_URL"), roomName := roomName,
        participantToken :=
          createParticipantToken (env ("LIVEKIT_API_KEY")) (env ("LIVEKIT_API_SECRET"))
            { identity := participantIdentity, name := participantName, metadata := metadata }
            roomName,
        participantName := participantName }
  else GETResult.errorResponse 400 ("Missing required parameters")

/-- Model of `GET` from `src/unnamed/part_001` (the botName-deriving
variant); identical to `GET_A` except for the metadata normalization. -/
def GET_B (env : String → Option String) (rng : Nat → Nat)
    (roomNameQ participantNameQ metadataQ : Option String) : GETResult :=
  if truthyStr roomNameQ && truthyStr participantNameQ then
    let roomName := roomNameQ.getD ""
    let participantName := participantNameQ.getD ""
    let metadata := deriveMetadataB participantName (metadataQ.getD "")
    let participantIdentity := participantName ++ "__" ++ randomString rng 4
    GETResult.ok
      { serverUrl := env ("LIVEKIT_URL"), roomName := roomName,
        participantToken :=
          createParticipantToken (env ("LIVEKIT_API_KEY")) (env ("LIVEKIT_API_SECRET"))
            { identity := participantIdentity, name := participantName, metadata := metadata }
            roomName,
        participantName := participantName }
  else GETResult.errorResponse 400 ("Missing required parameters")

/-- Character-wise uppercase, modelling JavaScript `toUpperCase` on the
ASCII keys the handler builds. -/
def toUpperStr (s : String) : String := String.mk (s.toList.map Char.toUpper)

/-- Model of `getLiveKitURL` (`route.ts` lines 77-87): pick the environment
key (the region-suffixed template uppercased when the region is truthy),
then return the value, throwing — modelled as `Except.error` — when the
looked-up value is absent or empty (`if (!url)`). -/
def getLiveKitURL (env : String → Option String) (region : Option String) :
    Except String String :=
  let targetKey :=
    match region with
    | some r => if r = "" then "LIVEKIT_URL" else toUpperStr ("LIVEKIT_URL_" ++ r)
    | none => "LIVEKIT_URL"
  match env targetKey with
  | none => Except.error (targetKey ++ " is not defined")
  | some url => if url = "" then Except.error (targetKey ++ " is not defined") else Except.ok url

/-- Per-claim validity of the metadata string a result forwarded to the
signing step: on success it must parse as JSON; error responses forward
nothing. -/
def forwardedMetadataValid : GETResult → Bool
  | GETResult.ok d => (jsonParse d.participantToken.userInfo.metadata).isSome
  | GETResult.errorResponse _ _ => true

/-- Grant set and ttl carried by the signing request of a successful
result. -/
def grantsTtlProp (room : String) : GETResult → Prop
  | GETResult.ok d =>
    d.participantToken.grants =
      [{ room := room, roomJoin := true, canPublish := true, canPublishData := true,
         canSubscribe := true }] ∧
    d.participantToken.ttl = "5m"
  | GETResult.errorResponse _ _ => True

/-- Shape of the participant identity carried by the signing request of a
successful result. -/
def identityProp (pn : String) (rng : Nat → Nat) : GETResult → Prop
  | GETResult.ok d => d.participantToken.userInfo.identity = pn ++ "__" ++ randomString rng 4
  | GETResult.errorResponse _ _ => True

/-- Whether a JSON value is a primitive (not an object and not an array). -/
def jsPrimitive : Js → Bool
  | Js.null => true
  | Js.bool _ => true
  | Js.num _ => true
  | Js.str _ => true
  | Js.arr _ => false
  | Js.obj _ => false

/-- Selection state of the dropdown component. -/
structure DropdownState where
  isOpen : Bool
  selectedPerson : String
deriving DecidableEq

/-- User-driven events of the dropdown component: the toggle button, or a
click on the option rendered at index `i` of the option list. -/
inductive DropdownEvent where
  | toggle
  | choose (i : Fin 3)

namespace DropdownMain

/-- Option list of `src/frontend/components/Dropdown.tsx` line 8. -/
def people : List String := ["Ram", "Shyam", "Ketan"]

/-- Initial state of `Dropdown.tsx` lines 6-7: closed, selection `"Ram"`. -/
def init : DropdownState := { isOpen := false, selectedPerson := "Ram" }

/-- Option entries rendered by `Dropdown.tsx` lines 21-47: the full list when
open, none when closed. -/
def optionsShown (s : DropdownState) : List String :=
  if s.isOpen then people else []

/-- State transition of `Dropdown.tsx`: the toggle button flips `isOpen`
(line 13); clicking an option — possible only while the list is rendered,
i.e. open — sets the selection, closes the list and invokes `onSelect` with
the option (lines 33-37).  The second component is the argument of the
`onSelect` callback invocation, if any. -/
def step (s : DropdownState) (e : DropdownEvent) : DropdownState × Option String :=
  match e with
  | DropdownEvent.toggle => ({ s with isOpen := !s.isOpen }, none)
  | DropdownEvent.choose i =>
    if s.isOpen then
      ({ isOpen := false, selectedPerson := people.get ⟨i.val, i.isLt⟩ },
       some (people.get ⟨i.val, i.isLt⟩))
    else (s, none)

/-- Run a sequence of events, collecting the `onSelect` invocations. -/
def run (s : DropdownState) : List DropdownEvent → DropdownState × List String
  | [] => (s, [])
  | e :: es =>
    let p := step s e
    let q := run p.1 es
    (q.1, p.2.toList ++ q.2)

end DropdownMain

namespace DropdownAlt

/-- Option list of `src/unnamed/part_000` line 8. -/
def people : List String := ["Ram", "Shyam", "Ketan"]

/-- Initial state of `part_000` lines 6-7: closed, selection `"Ram"`. -/
def init : DropdownState := { isOpen := false, selectedPerson := "Ram" }

/-- Option entries rendered by `part_000` lines 21-47. -/
def optionsShown (s : DropdownState) : List String :=
  if s.isOpen then people else []

/-- State transition of `part_000` (toggle: line 13; option click:
lines 33-37). -/
def step (s : DropdownState) (e : DropdownEvent) : DropdownState × Option String :=
  match e with
  | DropdownEvent.toggle => ({ s with isOpen := !s.isOpen }, none)
  | DropdownEvent.choose i =>
    if s.isOpen then
      ({ isOpen := false, selectedPerson := people.get ⟨i.val, i.isLt⟩ },
       some (people.get ⟨i.val, i.isLt⟩))
    else (s, none)

/-- Run a sequence of events, collecting the `onSelect` invocations. -/
def run (s : DropdownState) : List DropdownEvent → DropdownState × List String
  | [] => (s, [])
  | e :: es =>
    let p := step s e
    let q := run p.1 es
    (q.1, p.2.toList ++ q.2)

end DropdownAlt

/-- Concrete environment used by witness instantiations. -/
def envW : String → Option String :=
  fun k => if k = "LIVEKIT_URL" then some ("wss://example.test") else none

/-- Concrete randomness source used by witness instantiations. -/
def rngW : Nat → Nat := fun i => i + 7

example : deriveMetadataB ("alice") ("\x7b\"selectedPerson\":\"bob\"\x7d") =
    "\x7b\"selectedPerson\":\"bob\",\"botName\":\"bob\"\x7d" := rfl
example : deriveMetadataB ("alice") ("") =
    "\x7b\"selectedPerson\":\"alice\",\"botName\":\"alice\"\x7d" := rfl
example : deriveMetadataB ("alice") ("\x7b\"selectedPerson\":\"\"\x7d") =
    "\x7b\"selectedPerson\":\"\",\"botName\":\"alice\"\x7d" := rfl
example : deriveMetadataB ("p") ("[]") = "[]" := rfl
example : deriveMetadataB ("p") ("5") =
    "\x7b\"selectedPerson\":\"p\",\"botName\":\"p\"\x7d" := rfl
example : deriveMetadataA ("alice") ("not json") =
    "\x7b\"selectedPerson\":\"alice\"\x7d" := rfl
example : deriveMetadataA ("alice") ("\x7b\"x\": 1\x7d") = "\x7b\"x\": 1\x7d" := rfl
example : randomString rngW 4 = "hijk" := rfl

/-- No leading decimal digit (used to delimit printed numbers). -/
def noDigitHead : List Char → Bool
  | [] => true
  | c :: _ => !c.isDigit

/-- Round-trip property of a printed value: with enough fuel, the parser
consumes exactly its rendering and succeeds. -/
def RTvP (v : Js) : Prop :=
  ∀ (f : Nat) (rest : List Char), (printChars v).length + 1 ≤ f → noDigitHead rest = true →
    ∃ w, parseCore f PMode.value (printChars v ++ rest) = some (PRes.value w, rest)

/-- Round-trip property of a printed non-empty element list followed by a
closing bracket. -/
def RTeP (xs : List Js) : Prop :=
  xs ≠ [] → ∀ (f : Nat) (rest : List Char), (printList xs).length + 2 ≤ f →
    ∃ ws, parseCore f PMode.elems (printList xs ++ (']' :: rest)) = some (PRes.elems ws, rest)

/-- Round-trip property of a printed non-empty member list followed by a
closing brace. -/
def RTmP (fs : List (String × Js)) : Prop :=
  fs ≠ [] → ∀ (f : Nat) (rest : List Char), (printMembers fs).length + 2 ≤ f →
    ∃ gs, parseCore f PMode.membs (printMembers fs ++ ('\x7d' :: rest)) = some (PRes.membs gs, rest)

/-- Environment exhibiting the `getLiveKitURL` counterexample: the default
key is present but holds the empty string. -/
def env8 : String → Option String :=
  fun k => if k = "LIVEKIT_URL" then some "" else none

theorem skipWs_cons {c : Char} (l : List Char) (h : isWsChar c = false) :
    skipWs (c :: l) = c :: l := by
  simp [skipWs, h]

theorem digitChar_isDigit {d : Nat} (h : d < 10) : (digitChar d).isDigit = true := by
  interval_cases d <;> decide

theorem digit_not_special {c : Char} (h : c.isDigit = true) :
    isWsChar c = false ∧ c ≠ ']' ∧ c ≠ '\x7d' := by
  refine ⟨?_, ?_, ?_⟩
  · cases hx : isWsChar c
    · rfl
    · exfalso
      simp only [isWsChar, Bool.or_eq_true, decide_eq_true_eq] at hx
      have hx2 : c = ' ' ∨ c = '\t' ∨ c = '\n' ∨ c = '\r' := by tauto
      rcases hx2 with h1 | h1 | h1 | h1 <;> (subst h1; exact absurd h (by decide))
  · intro h1; subst h1; exact absurd h (by decide)
  · intro h1; subst h1; exact absurd h (by decide)

theorem natDigitsFuel_ne_nil_of_acc :
    ∀ (f n : Nat) (acc : List Char), acc ≠ [] → natDigitsFuel f n acc ≠ []
  | 0, _, _, h => h
  | Nat.succ f, n, acc, h => by
    by_cases hn : n = 0
    · simp [natDigitsFuel, hn, h]
    · simpa [natDigitsFuel, hn] using
        natDigitsFuel_ne_nil_of_acc f (n / 10) (digitChar (n % 10) :: acc) (by simp)

theorem natDigitsFuel_digits :
    ∀ (f n : Nat) (acc : List Char), (∀ c ∈ acc, c.isDigit = true) →
      ∀ c ∈ natDigitsFuel f n acc, c.isDigit = true
  | 0, _, _, h => h
  | Nat.succ f, n, acc, h => by
    by_cases hn : n = 0
    · simpa [natDigitsFuel, hn] using h
    · simp only [natDigitsFuel, hn, if_false]
      refine natDigitsFuel_digits f (n / 10) (digitChar (n % 10) :: acc) ?_
      intro c hc
      rcases List.mem_cons.mp hc with h1 | h1
      · subst h1; exact digitChar_isDigit (Nat.mod_lt _ (by omega))
      · exact h c h1

theorem natToDigits_ne_nil (n : Nat) : natToDigits n ≠ [] := by
  by_cases hn : n = 0
  · simp [natToDigits, hn]
  · obtain ⟨m, rfl⟩ : ∃ m, n = m + 1 := ⟨n - 1, by omega⟩
    simp only [natToDigits, hn, if_false]
    show natDigitsFuel (Nat.succ (m + 1)) (m + 1) [] ≠ []
    simp only [natDigitsFuel, hn, if_false]
    exact natDigitsFuel_ne_nil_of_acc (m + 1) ((m + 1) / 10)
      (digitChar ((m + 1) % 10) :: []) (by simp)

theorem natToDigits_digits (n : Nat) : ∀ c ∈ natToDigits n, c.isDigit = true := by
  by_cases hn : n = 0
  · simp [natToDigits, hn]
  · simp only [natToDigits, hn, if_false]
    exact natDigitsFuel_digits _ _ _ (by simp)

theorem takeDigits_append :
    ∀ (ds rest : List Char), (∀ c ∈ ds, c.isDigit = true) → noDigitHead rest = true →
      takeDigits (ds ++ rest) = (ds, rest)
  | [], rest, _, hr => by
    cases rest with
    | nil => rfl
    | cons c r =>
      have : c.isDigit = false := by
        simpa [noDigitHead] using hr
      simp [takeDigits, this]
  | d :: ds, rest, hds, hr => by
    have h1 : d.isDigit = true := hds d (by simp)
    have h2 := takeDigits_append ds rest (fun c hc => hds c (by simp [hc])) hr
    simp [takeDigits, h1, h2]

theorem parseStringBody_escape :
    ∀ (l : List Char) (f : Nat) (rest : List Char),
      (escapeChars l).length + 1 ≤ f →
      parseStringBody f (escapeChars l ++ ('"' :: rest)) = some (l, rest)
  | [], f, rest, hf => by
    obtain ⟨g, rfl⟩ : ∃ g, f = g + 1 := ⟨f - 1, by omega⟩
    rfl
  | c :: l, f, rest, hf => by
    have hlen : (escapeChars (c :: l)).length = (escapeChar c).length + (escapeChars l).length := by
      simp [escapeChars]
    by_cases h1 : c = '"'
    · subst h1
      obtain ⟨g, rfl⟩ : ∃ g, f = g + 1 := by
        refine ⟨f - 1, ?_⟩
        have : 1 ≤ f := by omega
        omega
      have ih := parseStringBody_escape l g rest (by
        simp [escapeChar] at hlen
        omega)
      show parseStringBody (g + 1)
        (('\\' :: '"' :: escapeChars l) ++ ('"' :: rest)) = some ('"' :: l, rest)
      show (match parseStringBody g (escapeChars l ++ ('"' :: rest)) with
            | some (content, rest) => some (('"' : Char) :: content, rest)
            | none => none) = some ('"' :: l, rest)
      rw [ih]
    · by_cases h2 : c = '\\'
      · subst h2
        obtain ⟨g, rfl⟩ : ∃ g, f = g + 1 := ⟨f - 1, by omega⟩
        have ih := parseStringBody_escape l g rest (by
          simp [escapeChar] at hlen
          omega)
        show parseStringBody (g + 1)
          (('\\' :: '\\' :: escapeChars l) ++ ('"' :: rest)) = some ('\\' :: l, rest)
        show (match parseStringBody g (escapeChars l ++ ('"' :: rest)) with
              | some (content, rest) => some (('\\' : Char) :: content, rest)
              | none => none) = some ('\\' :: l, rest)
        rw [ih]
      · obtain ⟨g, rfl⟩ : ∃ g, f = g + 1 := ⟨f - 1, by omega⟩
        have ih := parseStringBody_escape l g rest (by
          simp [escapeChar, h1, h2] at hlen
          omega)
        have hshape : escapeChars (c :: l) ++ ('"' :: rest) =
            c :: (escapeChars l ++ ('"' :: rest)) := by
          simp [escapeChars, escapeChar, h1, h2]
        rw [hshape]
        simp only [parseStringBody, h1, h2, if_false, ih]

theorem printNum_head (n : Int) :
    ∃ c t, printNum n = c :: t ∧ (c = '-' ∨ c.isDigit = true) := by
  by_cases hn : n < 0
  · exact ⟨'-', natToDigits n.natAbs, by simp [printNum, hn], Or.inl rfl⟩
  · obtain ⟨d, ds, hds⟩ : ∃ d ds, natToDigits n.natAbs = d :: ds := by
      cases h : natToDigits n.natAbs with
      | nil => exact absurd h (natToDigits_ne_nil _)
      | cons d ds => exact ⟨d, ds, rfl⟩
    refine ⟨d, ds, by simp [printNum, hn, hds], ?_⟩
    exact Or.inr (natToDigits_digits n.natAbs d (by rw [hds]; exact List.mem_cons_self _ _))

theorem printChars_head (v : Js) :
    ∃ c t, printChars v = c :: t ∧ isWsChar c = false ∧ c ≠ ']' ∧ c ≠ '\x7d' := by
  cases v with
  | null =>
    refine ⟨'n', ['u', 'l', 'l'], rfl, ?_, ?_, ?_⟩ <;> decide
  | bool b =>
    cases b with
    | true => refine ⟨'t', ['r', 'u', 'e'], rfl, ?_, ?_, ?_⟩ <;> decide
    | false => refine ⟨'f', ['a', 'l', 's', 'e'], rfl, ?_, ?_, ?_⟩ <;> decide
  | num n =>
    obtain ⟨c, t, hct, hc⟩ := printNum_head n
    refine ⟨c, t, by simp [printChars, hct], ?_, ?_, ?_⟩
    · rcases hc with h | h
      · subst h; decide
      · exact (digit_not_special h).1
    · rcases hc with h | h
      · subst h; decide
      · exact (digit_not_special h).2.1
    · rcases hc with h | h
      · subst h; decide
      · exact (digit_not_special h).2.2
  | str s => refine ⟨'"', escapeChars s.toList ++ ['"'], rfl, ?_, ?_, ?_⟩ <;> decide
  | arr xs => refine ⟨'[', printList xs ++ [']'], rfl, ?_, ?_, ?_⟩ <;> decide
  | obj fs => refine ⟨'\x7b', printMembers fs ++ ['\x7d'], rfl, ?_, ?_, ?_⟩ <;> decide

theorem printChars_length_pos (v : Js) : 1 ≤ (printChars v).length := by
  obtain ⟨c, t, hct, -, -, -⟩ := printChars_head v
  simp [hct]

theorem printList_head (x : Js) (xs : List Js) :
    ∃ c t, printList (x :: xs) = c :: t ∧ isWsChar c = false ∧ c ≠ ']' ∧ c ≠ '\x7d' := by
  obtain ⟨c, t, hct, h1, h2, h3⟩ := printChars_head x
  cases xs with
  | nil => exact ⟨c, t, by simp [printList, hct], h1, h2, h3⟩
  | cons y ys =>
    exact ⟨c, t ++ (',' :: printList (y :: ys)), by simp [printList, hct], h1, h2, h3⟩

theorem printMembers_head (k : String) (v : Js) (fs : List (String × Js)) :
    ∃ t, printMembers ((k, v) :: fs) = '"' :: t := by
  cases fs with
  | nil => exact ⟨_, rfl⟩
  | cons p ps => exact ⟨_, rfl⟩

theorem pc_quote (f : Nat) (X : List Char) :
    parseCore (Nat.succ f) PMode.value ('"' :: X) =
      (match parseStringBody f X with
       | some (content, rest) => some (PRes.value (Js.str (String.mk content)), rest)
       | none => none) := rfl

theorem pc_minus (f : Nat) (X : List Char) :
    parseCore (Nat.succ f) PMode.value ('-' :: X) =
      (match takeDigits X with
       | ([], _) => none
       | (d :: ds, rest) =>
         some (PRes.value (Js.num (-Int.ofNat (digitsToNat (d :: ds)))), rest)) := rfl

theorem pc_lbrack (f : Nat) (X : List Char) :
    parseCore (Nat.succ f) PMode.value ('[' :: X) =
      (match skipWs X with
       | [] => none
       | c2 :: cs2 =>
         if c2 = ']' then some (PRes.value (Js.arr []), cs2)
         else
           match parseCore f PMode.elems (c2 :: cs2) with
           | some (PRes.elems vs, rest) => some (PRes.value (Js.arr vs), rest)
           | _ => none) := rfl

theorem pc_lbrace (f : Nat) (X : List Char) :
    parseCore (Nat.succ f) PMode.value ('\x7b' :: X) =
      (match skipWs X with
       | [] => none
       | c2 :: cs2 =>
         if c2 = '\x7d' then some (PRes.value (Js.obj []), cs2)
         else
           match parseCore f PMode.membs (c2 :: cs2) with
           | some (PRes.membs fs, rest) => some (PRes.value (Js.obj (dedupFields fs)), rest)
           | _ => none) := rfl

theorem pc_elems (f : Nat) (X : List Char) :
    parseCore (Nat.succ f) PMode.elems X =
      (match parseCore f PMode.value X with
       | some (PRes.value v, rest) =>
         match skipWs rest with
         | [] => none
         | c2 :: rest2 =>
           if c2 = ',' then
             match parseCore f PMode.elems rest2 with
             | some (PRes.elems vs, rest3) => some (PRes.elems (v :: vs), rest3)
             | _ => none
           else if c2 = ']' then some (PRes.elems [v], rest2)
           else none
       | _ => none) := rfl

theorem pc_membs (f : Nat) (X : List Char) :
    parseCore (Nat.succ f) PMode.membs ('"' :: X) =
      (match parseStringBody f X with
       | some (key, rest) =>
         match skipWs rest with
         | [] => none
         | c2 :: rest2 =>
           if c2 = ':' then
             match parseCore f PMode.value rest2 with
             | some (PRes.value v, rest3) =>
               match skipWs rest3 with
               | [] => none
               | c3 :: rest4 =>
                 if c3 = ',' then
                   match parseCore f PMode.membs rest4 with
                   | some (PRes.membs fs, rest5) =>
                     some (PRes.membs ((String.mk key, v) :: fs), rest5)
                   | _ => none
                 else if c3 = '\x7d' then some (PRes.membs [(String.mk key, v)], rest4)
                 else none
             | _ => none
           else none
       | none => none) := rfl

theorem pc_digit (f : Nat) (c : Char) (X : List Char) (h : c.isDigit = true) :
    parseCore (Nat.succ f) PMode.value (c :: X) =
      some (PRes.value (Js.num (Int.ofNat (digitsToNat (takeDigits (c :: X)).1))),
        (takeDigits (c :: X)).2) := by
  have hws : isWsChar c = false := (digit_not_special h).1
  have h1 : c ≠ 'n' := by intro e; subst e; exact absurd h (by decide)
  have h2 : c ≠ 't' := by intro e; subst e; exact absurd h (by decide)
  have h3 : c ≠ 'f' := by intro e; subst e; exact absurd h (by decide)
  have h4 : c ≠ '"' := by intro e; subst e; exact absurd h (by decide)
  have h5 : c ≠ '-' := by intro e; subst e; exact absurd h (by decide)
  simp only [parseCore]
  rw [skipWs_cons _ hws]
  simp only [h1, h2, h3, h4, h5, if_false, h, if_true]

theorem value_step_str (g : Nat) (X rest content : List Char)
    (h : parseStringBody g X = some (content, rest)) :
    parseCore (Nat.succ g) PMode.value ('"' :: X) =
      some (PRes.value (Js.str (String.mk content)), rest) := by
  rw [pc_quote, h]

theorem value_step_arr (g : Nat) (X rest : List Char) (c0 : Char) (t : List Char) (vs : List Js)
    (hsw : skipWs X = c0 :: t) (hne : c0 ≠ ']')
    (he : parseCore g PMode.elems (c0 :: t) = some (PRes.elems vs, rest)) :
    parseCore (Nat.succ g) PMode.value ('[' :: X) = some (PRes.value (Js.arr vs), rest) := by
  rw [pc_lbrack, hsw]
  show (if c0 = ']' then some (PRes.value (Js.arr []), t)
        else
          match parseCore g PMode.elems (c0 :: t) with
          | some (PRes.elems vs, rest) => some (PRes.value (Js.arr vs), rest)
          | _ => none) = some (PRes.value (Js.arr vs), rest)
  rw [if_neg hne, he]

theorem value_step_obj (g : Nat) (X rest : List Char) (c0 : Char) (t : List Char)
    (fs : List (String × Js))
    (hsw : skipWs X = c0 :: t) (hne : c0 ≠ '\x7d')
    (he : parseCore g PMode.membs (c0 :: t) = some (PRes.membs fs, rest)) :
    parseCore (Nat.succ g) PMode.value ('\x7b' :: X) =
      some (PRes.value (Js.obj (dedupFields fs)), rest) := by
  rw [pc_lbrace, hsw]
  show (if c0 = '\x7d' then some (PRes.value (Js.obj []), t)
        else
          match parseCore g PMode.membs (c0 :: t) with
          | some (PRes.membs fs, rest) => some (PRes.value (Js.obj (dedupFields fs)), rest)
          | _ => none) = some (PRes.value (Js.obj (dedupFields fs)), rest)
  rw [if_neg hne, he]

theorem elems_step_close (g : Nat) (X rest : List Char) (w : Js)
    (hw : parseCore g PMode.value X = some (PRes.value w, ']' :: rest)) :
    parseCore (Nat.succ g) PMode.elems X = some (PRes.elems [w], rest) := by
  rw [pc_elems, hw]
  rfl

theorem elems_step_comma (g : Nat) (X B rest : List Char) (w : Js) (ws : List Js)
    (hw : parseCore g PMode.value X = some (PRes.value w, ',' :: B))
    (hws : parseCore g PMode.elems B = some (PRes.elems ws, rest)) :
    parseCore (Nat.succ g) PMode.elems X = some (PRes.elems (w :: ws), rest) := by
  rw [pc_elems, hw]
  show (match parseCore g PMode.elems B with
        | some (PRes.elems vs, rest3) => some (PRes.elems (w :: vs), rest3)
        | _ => none) = some (PRes.elems (w :: ws), rest)
  rw [hws]

theorem membs_step_close (g : Nat) (K X rest key : List Char) (w : Js)
    (hk : parseStringBody g K = some (key, ':' :: X))
    (hv : parseCore g PMode.value X = some (PRes.value w, '\x7d' :: rest)) :
    parseCore (Nat.succ g) PMode.membs ('"' :: K) =
      some (PRes.membs [(String.mk key, w)], rest) := by
  rw [pc_membs, hk]
  show (match parseCore g PMode.value X with
        | some (PRes.value v, rest3) =>
          match skipWs rest3 with
          | [] => none
          | c3 :: rest4 =>
            if c3 = ',' then
              match parseCore g PMode.membs rest4 with
              | some (PRes.membs fs, rest5) =>
                some (PRes.membs ((String.mk key, v) :: fs), rest5)
              | _ => none
            else if c3 = '\x7d' then some (PRes.membs [(String.mk key, v)], rest4)
            else none
        | _ => none) = some (PRes.membs [(String.mk key, w)], rest)
  rw [hv]
  rfl

theorem membs_step_comma (g : Nat) (K X B rest key : List Char) (w : Js)
    (gs : List (String × Js))
    (hk : parseStringBody g K = some (key, ':' :: X))
    (hv : parseCore g PMode.value X = some (PRes.value w, ',' :: B))
    (hm : parseCore g PMode.membs B = some (PRes.membs gs, rest)) :
    parseCore (Nat.succ g) PMode.membs ('"' :: K) =
      some (PRes.membs ((String.mk key, w) :: gs), rest) := by
  rw [pc_membs, hk]
  show (match parseCore g PMode.value X with
        | some (PRes.value v, rest3) =>
          match skipWs rest3 with
          | [] => none
          | c3 :: rest4 =>
            if c3 = ',' then
              match parseCore g PMode.membs rest4 with
              | some (PRes.membs fs, rest5) =>
                some (PRes.membs ((String.mk key, v) :: fs), rest5)
              | _ => none
            else if c3 = '\x7d' then some (PRes.membs [(String.mk key, v)], rest4)
            else none
        | _ => none) = some (PRes.membs ((String.mk key, w) :: gs), rest)
  rw [hv]
  show (match parseCore g PMode.membs B with
        | some (PRes.membs fs, rest5) =>
          some (PRes.membs ((String.mk key, w) :: fs), rest5)
        | _ => none) = some (PRes.membs ((String.mk key, w) :: gs), rest)
  rw [hm]

theorem RTe_of : ∀ (xs : List Js), (∀ x ∈ xs, RTvP x) → RTeP xs
  | [], _ => fun h => absurd rfl h
  | [x], hx => by
    intro _ f rest hf
    have hpl : printList [x] = printChars x := rfl
    rw [hpl] at hf ⊢
    obtain ⟨g, rfl⟩ : ∃ g, f = g + 1 := ⟨f - 1, by omega⟩
    obtain ⟨w, hw⟩ := hx x (by simp) g (']' :: rest) (by omega) rfl
    exact ⟨[w], elems_step_close g _ rest w hw⟩
  | x :: y :: ys, hx => by
    intro _ f rest hf
    have hexp : printList (x :: y :: ys) = printChars x ++ (',' :: printList (y :: ys)) := rfl
    have hlen : (printList (x :: y :: ys)).length =
        (printChars x).length + 1 + (printList (y :: ys)).length := by
      rw [hexp]; simp; omega
    obtain ⟨cy, ty, hcy, -, -, -⟩ := printList_head y ys
    have hylen : 1 ≤ (printList (y :: ys)).length := by rw [hcy]; simp
    have hxp := printChars_length_pos x
    obtain ⟨g, rfl⟩ : ∃ g, f = g + 1 := ⟨f - 1, by omega⟩
    obtain ⟨w, hw⟩ := hx x (by simp) g (',' :: (printList (y :: ys) ++ (']' :: rest)))
      (by omega) rfl
    obtain ⟨ws, hws⟩ :=
      RTe_of (y :: ys) (fun z hz => hx z (List.mem_cons_of_mem x hz)) (by simp) g rest (by omega)
    refine ⟨w :: ws, ?_⟩
    have hgoal : printList (x :: y :: ys) ++ (']' :: rest) =
        printChars x ++ (',' :: (printList (y :: ys) ++ (']' :: rest))) := by
      rw [hexp, List.append_assoc]; rfl
    rw [hgoal]
    exact elems_step_comma g _ _ rest w ws hw hws

theorem RTm_of : ∀ (fs : List (String × Js)), (∀ kv ∈ fs, RTvP kv.2) → RTmP fs
  | [], _ => fun h => absurd rfl h
  | [(k, v)], hx => by
    intro _ f rest hf
    have hexp : printMembers [(k, v)] =
        '"' :: (escapeChars k.toList ++ ('"' :: ':' :: printChars v)) := rfl
    have hlen : (printMembers [(k, v)]).length =
        (escapeChars k.toList).length + 3 + (printChars v).length := by
      rw [hexp]; simp; omega
    obtain ⟨g, rfl⟩ : ∃ g, f = g + 1 := ⟨f - 1, by omega⟩
    have hk := parseStringBody_escape k.toList g
      (':' :: (printChars v ++ ('\x7d' :: rest))) (by omega)
    have hxv : RTvP v := hx (k, v) (by simp)
    obtain ⟨w, hw⟩ := hxv g ('\x7d' :: rest) (by omega) rfl
    refine ⟨[(String.mk k.toList, w)], ?_⟩
    have hgoal : printMembers [(k, v)] ++ ('\x7d' :: rest) =
        '"' :: (escapeChars k.toList ++ ('"' :: (':' :: (printChars v ++ ('\x7d' :: rest))))) := by
      rw [hexp]; simp [List.append_assoc]
    rw [hgoal]
    exact membs_step_close g _ _ rest k.toList w hk hw
  | (k, v) :: p :: fs, hx => by
    intro _ f rest hf
    have hexp : printMembers ((k, v) :: p :: fs) =
        ('"' :: (escapeChars k.toList ++ ('"' :: ':' :: printChars v))) ++
          (',' :: printMembers (p :: fs)) := rfl
    have hlen : (printMembers ((k, v) :: p :: fs)).length =
        (escapeChars k.toList).length + 3 + (printChars v).length + 1 +
          (printMembers (p :: fs)).length := by
      rw [hexp]; simp; omega
    obtain ⟨tp, htp⟩ := printMembers_head p.1 p.2 fs
    have hplen : 1 ≤ (printMembers (p :: fs)).length := by
      have : printMembers (p :: fs) = '"' :: tp := by
        rw [← htp]
      rw [this]; simp
    obtain ⟨g, rfl⟩ : ∃ g, f = g + 1 := ⟨f - 1, by omega⟩
    have hk := parseStringBody_escape k.toList g
      (':' :: (printChars v ++ (',' :: (printMembers (p :: fs) ++ ('\x7d' :: rest))))) (by omega)
    have hxv : RTvP v := hx (k, v) (by simp)
    obtain ⟨w, hw⟩ := hxv g
      (',' :: (printMembers (p :: fs) ++ ('\x7d' :: rest))) (by omega) rfl
    obtain ⟨gs, hgs⟩ :=
      RTm_of (p :: fs) (fun z hz => hx z (List.mem_cons_of_mem (k, v) hz)) (by simp) g rest
        (by omega)
    refine ⟨(String.mk k.toList, w) :: gs, ?_⟩
    have hgoal : printMembers ((k, v) :: p :: fs) ++ ('\x7d' :: rest) =
        '"' :: (escapeChars k.toList ++ ('"' :: (':' ::
          (printChars v ++ (',' :: (printMembers (p :: fs) ++ ('\x7d' :: rest))))))) := by
      rw [hexp]; simp [List.append_assoc]
    rw [hgoal]
    exact membs_step_comma g _ _ _ rest k.toList w gs hk hw hgs

theorem RTv_all (v : Js) : RTvP v := by
  suffices h : ∀ (n : Nat) (w : Js), sizeOf w ≤ n → RTvP w from h (sizeOf v) v le_rfl
  intro n
  induction n with
  | zero =>
    intro w hw
    exfalso
    cases w <;> simp_arith at hw
  | succ n ih =>
    intro w hw
    cases w with
    | null =>
      intro f rest hf hr
      obtain ⟨g, rfl⟩ : ∃ g, f = g + 1 := ⟨f - 1, by omega⟩
      exact ⟨Js.null, rfl⟩
    | bool b =>
      cases b with
      | true =>
        intro f rest hf hr
        obtain ⟨g, rfl⟩ : ∃ g, f = g + 1 := ⟨f - 1, by omega⟩
        exact ⟨Js.bool true, rfl⟩
      | false =>
        intro f rest hf hr
        obtain ⟨g, rfl⟩ : ∃ g, f = g + 1 := ⟨f - 1, by omega⟩
        exact ⟨Js.bool false, rfl⟩
    | num m =>
      intro f rest hf hr
      obtain ⟨g, rfl⟩ : ∃ g, f = g + 1 := ⟨f - 1, by omega⟩
      by_cases hm : m < 0
      · obtain ⟨d, ds, hds⟩ : ∃ d ds, natToDigits m.natAbs = d :: ds := by
          cases h : natToDigits m.natAbs with
          | nil => exact absurd h (natToDigits_ne_nil _)
          | cons d ds => exact ⟨d, ds, rfl⟩
        have hdig : ∀ c ∈ d :: ds, c.isDigit = true := by
          rw [← hds]; exact natToDigits_digits m.natAbs
        have hpc : printChars (Js.num m) = '-' :: (d :: ds) := by
          show printNum m = '-' :: (d :: ds)
          rw [show printNum m = '-' :: natToDigits m.natAbs from by simp [printNum, hm], hds]
        rw [hpc]
        refine ⟨Js.num (-Int.ofNat (digitsToNat (d :: ds))), ?_⟩
        rw [show ('-' :: (d :: ds)) ++ rest = '-' :: ((d :: ds) ++ rest) from rfl, pc_minus,
          takeDigits_append (d :: ds) rest hdig hr]
      · obtain ⟨d, ds, hds⟩ : ∃ d ds, natToDigits m.natAbs = d :: ds := by
          cases h : natToDigits m.natAbs with
          | nil => exact absurd h (natToDigits_ne_nil _)
          | cons d ds => exact ⟨d, ds, rfl⟩
        have hdig : ∀ c ∈ d :: ds, c.isDigit = true := by
          rw [← hds]; exact natToDigits_digits m.natAbs
        have hpc : printChars (Js.num m) = d :: ds := by
          show printNum m = d :: ds
          rw [show printNum m = natToDigits m.natAbs from by simp [printNum, hm], hds]
        rw [hpc]
        refine ⟨Js.num (Int.ofNat (digitsToNat (d :: ds))), ?_⟩
        rw [show (d :: ds) ++ rest = d :: (ds ++ rest) from rfl,
          pc_digit g d (ds ++ rest) (hdig d (by simp)),
          show d :: (ds ++ rest) = (d :: ds) ++ rest from rfl,
          takeDigits_append (d :: ds) rest hdig hr]
    | str s =>
      intro f rest hf hr
      have hpc : printChars (Js.str s) = '"' :: (escapeChars s.toList ++ ['"']) := rfl
      have hlen : (printChars (Js.str s)).length = (escapeChars s.toList).length + 2 := by
        rw [hpc]; simp
      obtain ⟨g, rfl⟩ : ∃ g, f = g + 1 := ⟨f - 1, by omega⟩
      have hk := parseStringBody_escape s.toList g rest (by omega)
      refine ⟨Js.str (String.mk s.toList), ?_⟩
      have hshape : printChars (Js.str s) ++ rest =
          '"' :: (escapeChars s.toList ++ ('"' :: rest)) := by
        rw [hpc]; simp [List.append_assoc]
      rw [hshape]
      exact value_step_str g _ rest s.toList hk
    | arr xs =>
      cases xs with
      | nil =>
        intro f rest hf hr
        obtain ⟨g, rfl⟩ : ∃ g, f = g + 1 := ⟨f - 1, by omega⟩
        exact ⟨Js.arr [], rfl⟩
      | cons x ys =>
        have hall : ∀ z ∈ x :: ys, RTvP z := by
          intro z hz
          refine ih z ?_
          have h2 := List.sizeOf_lt_of_mem hz
          have h3 : sizeOf (Js.arr (x :: ys)) = 1 + sizeOf (x :: ys) := by
            simp [Js.arr.sizeOf_spec]
          omega
        have he := RTe_of (x :: ys) hall
        intro f rest hf hr
        have hpc : printChars (Js.arr (x :: ys)) = '[' :: (printList (x :: ys) ++ [']']) := rfl
        have hlen : (printChars (Js.arr (x :: ys))).length = (printList (x :: ys)).length + 2 := by
          rw [hpc]; simp
        obtain ⟨g, rfl⟩ : ∃ g, f = g + 1 := ⟨f - 1, by omega⟩
        obtain ⟨c0, t0, hct, hws0, hne0, -⟩ := printList_head x ys
        obtain ⟨ws, hwe⟩ := he (by simp) g rest (by omega)
        refine ⟨Js.arr ws, ?_⟩
        have hshape : printChars (Js.arr (x :: ys)) ++ rest =
            '[' :: (printList (x :: ys) ++ (']' :: rest)) := by
          rw [hpc]; simp [List.append_assoc]
        rw [hshape]
        refine value_step_arr g _ rest c0 (t0 ++ (']' :: rest)) ws ?_ hne0 ?_
        · rw [hct]
          show skipWs (c0 :: (t0 ++ (']' :: rest))) = c0 :: (t0 ++ (']' :: rest))
          exact skipWs_cons _ hws0
        · rw [show c0 :: (t0 ++ (']' :: rest)) = printList (x :: ys) ++ (']' :: rest) from by
            rw [hct, List.cons_append]]
          exact hwe
    | obj fs =>
      cases fs with
      | nil =>
        intro f rest hf hr
        obtain ⟨g, rfl⟩ : ∃ g, f = g + 1 := ⟨f - 1, by omega⟩
        exact ⟨Js.obj [], rfl⟩
      | cons q ps =>
        have hall : ∀ kv ∈ q :: ps, RTvP kv.2 := by
          intro kv hkv
          refine ih kv.2 ?_
          have h2 := List.sizeOf_lt_of_mem hkv
          obtain ⟨a, b⟩ := kv
          have h3 : sizeOf ((a, b) : String × Js) = 1 + sizeOf a + sizeOf b := by simp
          have h4 : sizeOf (Js.obj (q :: ps)) = 1 + sizeOf (q :: ps) := by
            simp [Js.obj.sizeOf_spec]
          simp only at h2 ⊢
          omega
        have hm := RTm_of (q :: ps) hall
        intro f rest hf hr
        obtain ⟨a, b⟩ := q
        have hpc : printChars (Js.obj ((a, b) :: ps)) =
            '\x7b' :: (printMembers ((a, b) :: ps) ++ ['\x7d']) := rfl
        have hlen : (printChars (Js.obj ((a, b) :: ps))).length =
            (printMembers ((a, b) :: ps)).length + 2 := by
          rw [hpc]; simp
        obtain ⟨g, rfl⟩ : ∃ g, f = g + 1 := ⟨f - 1, by omega⟩
        obtain ⟨t0, hct⟩ := printMembers_head a b ps
        obtain ⟨gs, hwm⟩ := hm (by simp) g rest (by omega)
        refine ⟨Js.obj (dedupFields gs), ?_⟩
        have hshape : printChars (Js.obj ((a, b) :: ps)) ++ rest =
            '\x7b' :: (printMembers ((a, b) :: ps) ++ ('\x7d' :: rest)) := by
          rw [hpc]; simp [List.append_assoc]
        rw [hshape]
        refine value_step_obj g _ rest '"' (t0 ++ ('\x7d' :: rest)) gs ?_ (by decide) ?_
        · rw [hct]
          show skipWs ('"' :: (t0 ++ ('\x7d' :: rest))) = '"' :: (t0 ++ ('\x7d' :: rest))
          exact skipWs_cons _ (by decide)
        · rw [show ('"' : Char) :: (t0 ++ ('\x7d' :: rest)) =
              printMembers ((a, b) :: ps) ++ ('\x7d' :: rest) from by rw [hct, List.cons_append]]
          exact hwm

theorem jsonParse_stringify_isSome (v : Js) : (jsonParse (stringify v)).isSome = true := by
  obtain ⟨w, hw⟩ := RTv_all v ((printChars v).length + 1) [] le_rfl rfl
  rw [List.append_nil] at hw
  have hlen : (stringify v).length = (printChars v).length := rfl
  have htl : (stringify v).toList = printChars v := rfl
  simp only [jsonParse, hlen, htl, hw]
  rfl

theorem deriveMetadataA_valid (pn raw : String) :
    (jsonParse (deriveMetadataA pn raw)).isSome = true := by
  cases hp : jsonParse raw with
  | some v => simp [deriveMetadataA, hp]
  | none =>
    simp only [deriveMetadataA, hp]
    exact jsonParse_stringify_isSome (defaultMetaA pn)

theorem deriveMetadataB_valid (pn raw : String) :
    (jsonParse (deriveMetadataB pn raw)).isSome = true := by
  cases hp : jsonParse raw with
  | none =>
    simp only [deriveMetadataB, hp]
    exact jsonParse_stringify_isSome (defaultMetaB pn)
  | some v =>
    cases hb : jsBotNameStep pn v with
    | none =>
      simp only [deriveMetadataB, hp, hb]
      exact jsonParse_stringify_isSome (defaultMetaB pn)
    | some v2 =>
      simp only [deriveMetadataB, hp, hb]
      exact jsonParse_stringify_isSome v2

theorem lookupField_setKey (fs : List (String × Js)) (k : String) (v : Js) :
    lookupField (setKey fs k v) k = some v := by
  induction fs with
  | nil => simp [setKey, lookupField]
  | cons p rest ih =>
    obtain ⟨k2, v2⟩ := p
    by_cases h : k2 = k
    · simp [setKey, h, lookupField]
    · simp [setKey, h, lookupField, ih]

theorem randomString_length (rng : Nat → Nat) (n : Nat) : (randomString rng n).length = n := by
  have h : (randomString rng n).length =
      ((List.range n).map (fun i => alphanumAlphabet.getD (rng i % 62) 'a')).length := rfl
  rw [h, List.length_map, List.length_range]

theorem randomString_alnum (rng : Nat → Nat) (n : Nat) :
    ((randomString rng n).toList.all Char.isAlphanum) = true := by
  have h : (randomString rng n).toList =
      (List.range n).map (fun i => alphanumAlphabet.getD (rng i % 62) 'a') := rfl
  rw [h, List.all_eq_true]
  intro c hc
  obtain ⟨i, hi, rfl⟩ := List.mem_map.mp hc
  have hlen : alphanumAlphabet.length = 62 := rfl
  have hlt : rng i % 62 < alphanumAlphabet.length := by
    rw [hlen]; exact Nat.mod_lt _ (by omega)
  have hall : ∀ c ∈ alphanumAlphabet, c.isAlphanum = true := by decide
  rw [List.getD_eq_getElem alphanumAlphabet 'a' hlt]
  exact hall _ (List.getElem_mem hlt)

/-- C3: for every request in which `roomName` or `participantName` is absent
or the empty string, both handler variants return the 400 response
`"Missing required parameters"` and perform no further work — in particular
no signing request is constructed and no credential is issued (the result is
not `GETResult.ok`). -/
theorem claim_C3_missing_params (env : String → Option String) (rng : Nat → Nat)
    (roomQ pnQ mQ : Option String)
    (h : truthyStr roomQ = false ∨ truthyStr pnQ = false) :
    GET_A env rng roomQ pnQ mQ = GETResult.errorResponse 400 ("Missing required parameters") ∧
    GET_B env rng roomQ pnQ mQ = GETResult.errorResponse 400 ("Missing required parameters") := by
  have hcond : (truthyStr roomQ && truthyStr pnQ) = false := by
    rcases h with h | h <;> simp [h]
  constructor
  · simp [GET_A, hcond]
  · simp [GET_B, hcond]

theorem claim_C3_missing_params_witness :
    (truthyStr none = false ∨ truthyStr (some ("alice")) = false) ∧
    GET_A envW rngW none (some ("alice")) none =
      GETResult.errorResponse 400 ("Missing required parameters") ∧
    GET_B envW rngW none (some ("alice")) none =
      GETResult.errorResponse 400 ("Missing required parameters") :=
  ⟨Or.inl rfl, claim_C3_missing_params envW rngW none (some ("alice")) none (Or.inl rfl)⟩

/-- C4: for every request, in both variants, whenever the handler reaches the
signing step the metadata string it forwards is syntactically valid JSON:
each path either forwards a string that was verified to parse, a
re-serialized parsed value, or the serialized default object. -/
theorem claim_C4_forwarded_metadata_valid (env : String → Option String) (rng : Nat → Nat)
    (roomQ pnQ mQ : Option String) :
    forwardedMetadataValid (GET_A env rng roomQ pnQ mQ) = true ∧
    forwardedMetadataValid (GET_B env rng roomQ pnQ mQ) = true := by
  by_cases hcond : (truthyStr roomQ && truthyStr pnQ) = true
  · constructor
    · simp [GET_A, hcond, forwardedMetadataValid, createParticipantToken, deriveMetadataA_valid]
    · simp [GET_B, hcond, forwardedMetadataValid, createParticipantToken, deriveMetadataB_valid]
  · have hcond2 : (truthyStr roomQ && truthyStr pnQ) = false := by
      revert hcond; cases (truthyStr roomQ && truthyStr pnQ) <;> simp
    constructor
    · simp [GET_A, hcond2, forwardedMetadataValid]
    · simp [GET_B, hcond2, forwardedMetadataValid]

/-- C5: for every successful issuance, in both variants, the signing request
carries exactly one grant, `{room := roomName, roomJoin := true,
canPublish := true, canPublishData := true, canSubscribe := true}`, and the
ttl is the SDK duration string `"5m"` (five minutes), independent of any
other request input. -/
theorem claim_C5_grants_and_ttl (env : String → Option String) (rng : Nat → Nat)
    (roomQ pnQ mQ : Option String) :
    grantsTtlProp (roomQ.getD "") (GET_A env rng roomQ pnQ mQ) ∧
    grantsTtlProp (roomQ.getD "") (GET_B env rng roomQ pnQ mQ) := by
  by_cases hcond : (truthyStr roomQ && truthyStr pnQ) = true
  · constructor
    · simp [GET_A, hcond, grantsTtlProp, createParticipantToken]
    · simp [GET_B, hcond, grantsTtlProp, createParticipantToken]
  · have hcond2 : (truthyStr roomQ && truthyStr pnQ) = false := by
      revert hcond; cases (truthyStr roomQ && truthyStr pnQ) <;> simp
    constructor
    · simp [GET_A, hcond2, grantsTtlProp]
    · simp [GET_B, hcond2, grantsTtlProp]

/-- C6: for every request that reaches identity construction, in both
variants, the participant identity is `participantName ++ "__" ++ s` where
`s` is the `randomString` output of length 4, and that output consists of
exactly 4 alphanumeric characters.  (`randomString` is modelled from the
spec: its source file `lib/client-utils` is not part of the provided
sources.) -/
theorem claim_C6_identity_shape (env : String → Option String) (rng : Nat → Nat)
    (roomQ pnQ mQ : Option String) :
    identityProp (pnQ.getD "") rng (GET_A env rng roomQ pnQ mQ) ∧
    identityProp (pnQ.getD "") rng (GET_B env rng roomQ pnQ mQ) ∧
    (randomString rng 4).length = 4 ∧
    ((randomString rng 4).toList.all Char.isAlphanum) = true := by
  refine ⟨?_, ?_, randomString_length rng 4, randomString_alnum rng 4⟩
  · by_cases hcond : (truthyStr roomQ && truthyStr pnQ) = true
    · simp [GET_A, hcond, identityProp, createParticipantToken]
    · have hcond2 : (truthyStr roomQ && truthyStr pnQ) = false := by
        revert hcond; cases (truthyStr roomQ && truthyStr pnQ) <;> simp
      simp [GET_A, hcond2, identityProp]
  · by_cases hcond : (truthyStr roomQ && truthyStr pnQ) = true
    · simp [GET_B, hcond, identityProp, createParticipantToken]
    · have hcond2 : (truthyStr roomQ && truthyStr pnQ) = false := by
        revert hcond; cases (truthyStr roomQ && truthyStr pnQ) <;> simp
      simp [GET_B, hcond2, identityProp]

/-- C1: for every request whose metadata string fails to parse as JSON, both
variants replace the metadata wholesale with the serialized documented
default object (`{selectedPerson: participantName}` in the plain variant,
`{selectedPerson: participantName, botName: participantName}` in the
botName-deriving variant), the raw invalid string is never forwarded to the
signing step, and the request still succeeds (no error response). -/
theorem claim_C1_invalid_metadata_default (env : String → Option String) (rng : Nat → Nat)
    (room pn raw : String) (hroom : room ≠ "") (hpn : pn ≠ "")
    (hraw : jsonParse raw = none) :
    ∃ dA dB,
      GET_A env rng (some room) (some pn) (some raw) = GETResult.ok dA ∧
      dA.participantToken.userInfo.metadata = stringify (defaultMetaA pn) ∧
      dA.participantToken.userInfo.metadata ≠ raw ∧
      GET_B env rng (some room) (some pn) (some raw) = GETResult.ok dB ∧
      dB.participantToken.userInfo.metadata = stringify (defaultMetaB pn) ∧
      dB.participantToken.userInfo.metadata ≠ raw := by
  have h1 : truthyStr (some room) = true := by simp [truthyStr, hroom]
  have h2 : truthyStr (some pn) = true := by simp [truthyStr, hpn]
  refine ⟨{ serverUrl := env ("LIVEKIT_URL"), roomName := room,
            participantToken :=
              createParticipantToken (env ("LIVEKIT_API_KEY")) (env ("LIVEKIT_API_SECRET"))
                { identity := pn ++ "__" ++ randomString rng 4, name := pn,
                  metadata := stringify (defaultMetaA pn) } room,
            participantName := pn },
          { serverUrl := env ("LIVEKIT_URL"), roomName := room,
            participantToken :=
              createParticipantToken (env ("LIVEKIT_API_KEY")) (env ("LIVEKIT_API_SECRET"))
                { identity := pn ++ "__" ++ randomString rng 4, name := pn,
                  metadata := stringify (defaultMetaB pn) } room,
            participantName := pn },
          ?_, rfl, ?_, ?_, rfl, ?_⟩
  · simp [GET_A, h1, h2, deriveMetadataA, hraw]
  · intro he
    have hs := jsonParse_stringify_isSome (defaultMetaA pn)
    have he2 : stringify (defaultMetaA pn) = raw := he
    rw [he2, hraw] at hs
    simp at hs
  · simp [GET_B, h1, h2, deriveMetadataB, hraw]
  · intro he
    have hs := jsonParse_stringify_isSome (defaultMetaB pn)
    have he2 : stringify (defaultMetaB pn) = raw := he
    rw [he2, hraw] at hs
    simp at hs

theorem claim_C1_invalid_metadata_default_witness :
    ("lobby" : String) ≠ "" ∧ ("alice" : String) ≠ "" ∧ jsonParse ("oops") = none ∧
    (∃ dA dB,
      GET_A envW rngW (some ("lobby")) (some ("alice")) (some ("oops")) = GETResult.ok dA ∧
      dA.participantToken.userInfo.metadata = stringify (defaultMetaA ("alice")) ∧
      dA.participantToken.userInfo.metadata ≠ "oops" ∧
      GET_B envW rngW (some ("lobby")) (some ("alice")) (some ("oops")) = GETResult.ok dB ∧
      dB.participantToken.userInfo.metadata = stringify (defaultMetaB ("alice")) ∧
      dB.participantToken.userInfo.metadata ≠ "oops") :=
  ⟨by decide, by decide, rfl,
    claim_C1_invalid_metadata_default envW rngW ("lobby") ("alice") ("oops")
      (by decide) (by decide) rfl⟩

/-- C2 counterexample: the claim as stated fails on the code.  For
`participantName = "alice"` and metadata `{"selectedPerson":""}` the field
`selectedPerson` is present (with value `""`), so the claim demands
`botName = ""`; but the code computes `selectedPerson || participantName`
with JavaScript truthiness, and the empty string is falsy, so the forwarded
metadata carries `botName = "alice"`. -/
theorem claim_C2_counterexample :
    jsonParse ("\x7b\"selectedPerson\":\"\"\x7d") =
      some (Js.obj [("selectedPerson", Js.str (""))]) ∧
    lookupField [("selectedPerson", Js.str (""))] "selectedPerson" = some (Js.str ("")) ∧
    deriveMetadataB ("alice") ("\x7b\"selectedPerson\":\"\"\x7d") =
      "\x7b\"selectedPerson\":\"\",\"botName\":\"alice\"\x7d" ∧
    ("\x7b\"selectedPerson\":\"\",\"botName\":\"alice\"\x7d" : String) ≠
      "\x7b\"selectedPerson\":\"\",\"botName\":\"\"\x7d" :=
  ⟨rfl, rfl, rfl, by decide⟩

/-- C2 (amended): in the botName-deriving variant, for every rawMetadata that
parses as a JSON object, the metadata forwarded to the signing step is the
re-serialization of that object with its `botName` field set to the `selectedPerson` of the parsed
object when that field is present and truthy (in the
JavaScript sense — in particular a non-empty string), and to
`participantName` when `selectedPerson` is absent or falsy. -/
theorem claim_C2_amended_botname_derivation (raw pn : String) (fields : List (String × Js))
    (h : jsonParse raw = some (Js.obj fields)) :
    deriveMetadataB pn raw =
      stringify (Js.obj (setKey fields "botName"
        (match lookupField fields "selectedPerson" with
         | some x => if jsTruthy x then x else Js.str pn
         | none => Js.str pn))) ∧
    lookupField (setKey fields "botName"
        (match lookupField fields "selectedPerson" with
         | some x => if jsTruthy x then x else Js.str pn
         | none => Js.str pn)) "botName" =
      some (match lookupField fields "selectedPerson" with
            | some x => if jsTruthy x then x else Js.str pn
            | none => Js.str pn) := by
  constructor
  · simp [deriveMetadataB, h, jsBotNameStep]
  · exact lookupField_setKey fields "botName" _

theorem claim_C2_amended_botname_derivation_witness :
    deriveMetadataB ("alice") ("\x7b\"selectedPerson\":\"bob\"\x7d") =
      "\x7b\"selectedPerson\":\"bob\",\"botName\":\"bob\"\x7d" ∧
    lookupField (setKey [("selectedPerson", Js.str ("bob"))] "botName" (Js.str ("bob")))
      "botName" = some (Js.str ("bob")) :=
  claim_C2_amended_botname_derivation ("\x7b\"selectedPerson\":\"bob\"\x7d") ("alice")
    [("selectedPerson", Js.str ("bob"))] rfl

/-- C9 counterexample: the claim as stated fails for arrays.  `"[]"` parses
as valid JSON and is not a JSON object, but the property assignment
`parsedMetadata.botName = ...` succeeds on a JavaScript array (it creates a
non-index property that `JSON.stringify` ignores), so the array is
re-serialized and forwarded — it is not replaced by the default object. -/
theorem claim_C9_counterexample :
    jsonParse ("[]") = some (Js.arr []) ∧
    deriveMetadataB ("p") ("[]") = "[]" ∧
    deriveMetadataB ("p") ("[]") ≠ stringify (defaultMetaB ("p")) :=
  ⟨rfl, rfl, by decide⟩

/-- C9 (amended): in the botName-deriving variant, rawMetadata that parses as
a JSON primitive (null, a number, a string, or a boolean — but not an array)
is replaced wholesale by the default object
`{selectedPerson: participantName, botName: participantName}`: in strict
mode the property assignment on a primitive throws, and the throw is
absorbed by the same fallback branch as a parse failure. -/
theorem claim_C9_amended_primitive_fallback (raw pn : String) (v : Js)
    (h : jsonParse raw = some v) (hp : jsPrimitive v = true) :
    deriveMetadataB pn raw = stringify (defaultMetaB pn) := by
  cases v with
  | null => simp [deriveMetadataB, h, jsBotNameStep]
  | bool b => simp [deriveMetadataB, h, jsBotNameStep]
  | num m => simp [deriveMetadataB, h, jsBotNameStep]
  | str s => simp [deriveMetadataB, h, jsBotNameStep]
  | arr xs => simp [jsPrimitive] at hp
  | obj fs => simp [jsPrimitive] at hp

theorem claim_C9_amended_primitive_fallback_witness :
    jsonParse ("5") = some (Js.num 5) ∧ jsPrimitive (Js.num 5) = true ∧
    deriveMetadataB ("p") ("5") = stringify (defaultMetaB ("p")) :=
  ⟨rfl, rfl, claim_C9_amended_primitive_fallback ("5") ("p") (Js.num 5) rfl rfl⟩

/-- C8 counterexample: the claim as stated fails when the keyed entry is
present but empty.  With the default key bound to the empty string,
`getLiveKitURL` throws (`if (!url)` treats `""` as missing) instead of
returning the stored value. -/
theorem claim_C8_counterexample :
    env8 ("LIVEKIT_URL") = some "" ∧
    getLiveKitURL env8 none = Except.error ("LIVEKIT_URL is not defined") ∧
    getLiveKitURL env8 none ≠ Except.ok "" :=
  ⟨rfl, rfl, fun h => Except.noConfusion h⟩

/-- C8 (amended): `getLiveKitURL` returns the environment value stored under
the uppercased region-suffixed key for a non-empty region (and under the
default key when no region is given) provided that value is present and
non-empty, and fails with a configuration error whenever the keyed entry is
absent or the empty string; an empty-string region identifier is treated
like no region. -/
theorem claim_C8_amended_url_resolution (env : String → Option String) (r v : String) :
    (r ≠ "" → v ≠ "" → env (toUpperStr ("LIVEKIT_URL_" ++ r)) = some v →
      getLiveKitURL env (some r) = Except.ok v) ∧
    (v ≠ "" → env ("LIVEKIT_URL") = some v → getLiveKitURL env none = Except.ok v) ∧
    (r ≠ "" → (env (toUpperStr ("LIVEKIT_URL_" ++ r)) = none ∨
        env (toUpperStr ("LIVEKIT_URL_" ++ r)) = some "") →
      getLiveKitURL env (some r) =
        Except.error ((toUpperStr ("LIVEKIT_URL_" ++ r)) ++ " is not defined")) ∧
    ((env ("LIVEKIT_URL") = none ∨ env ("LIVEKIT_URL") = some "") →
      getLiveKitURL env none = Except.error ("LIVEKIT_URL is not defined")) ∧
    getLiveKitURL env (some "") = getLiveKitURL env none := by
  refine ⟨?_, ?_, ?_, ?_, ?_⟩
  · intro hr hv he
    simp [getLiveKitURL, hr, he, hv]
  · intro hv he
    simp [getLiveKitURL, he, hv]
  · intro hr he
    rcases he with he | he <;> simp [getLiveKitURL, hr, he]
  · intro he
    rcases he with he | he <;> simp [getLiveKitURL, he]
  · simp [getLiveKitURL]

theorem claim_C8_amended_url_resolution_witness :
    getLiveKitURL envW none = Except.ok ("wss://example.test") ∧
    getLiveKitURL envW (some ("eu")) = Except.error ("LIVEKIT_URL_EU is not defined") :=
  ⟨(claim_C8_amended_url_resolution envW ("eu") ("wss://example.test")).2.1
      (by decide) rfl,
   (claim_C8_amended_url_resolution envW ("eu") ("wss://example.test")).2.2.1
      (by decide) (Or.inl rfl)⟩

/-- C7: the Selector UI starts Closed with default selection `"Ram"`; while
Open it presents exactly the option list `["Ram", "Shyam", "Ketan"]` (and no
options while Closed); and choosing the option at any index while Open sets
the displayed selection to that option, invokes the `onSelect` callback with
that option, and transitions to Closed.  The toggle action flips the
open/closed state. -/
theorem claim_C7_dropdown_behavior :
    DropdownMain.init = { isOpen := false, selectedPerson := "Ram" } ∧
    DropdownMain.people = ["Ram", "Shyam", "Ketan"] ∧
    (∀ sel : String,
      DropdownMain.optionsShown { isOpen := true, selectedPerson := sel } =
        ["Ram", "Shyam", "Ketan"]) ∧
    (∀ sel : String,
      DropdownMain.optionsShown { isOpen := false, selectedPerson := sel } = []) ∧
    (∀ (sel : String) (i : Fin 3),
      DropdownMain.step { isOpen := true, selectedPerson := sel } (DropdownEvent.choose i) =
        ({ isOpen := false, selectedPerson := DropdownMain.people.get ⟨i.val, i.isLt⟩ },
          some (DropdownMain.people.get ⟨i.val, i.isLt⟩))) ∧
    (∀ s : DropdownState,
      DropdownMain.step s DropdownEvent.toggle = ({ s with isOpen := !s.isOpen }, none)) :=
  ⟨rfl, rfl, fun _ => rfl, fun _ => rfl, fun _ _ => rfl, fun _ => rfl⟩

/-- C10: the two Dropdown source files define behaviorally equivalent
components: same initial state, same option list, identical state
transitions and callback invocations on every event, hence identical runs
(final state and emitted `onSelect` calls) on every event sequence.  Only
the presentational styling differs, which is outside the behavioral
model. -/
theorem claim_C10_dropdown_variants_equivalent :
    DropdownMain.init = DropdownAlt.init ∧
    DropdownMain.people = DropdownAlt.people ∧
    (∀ (s : DropdownState) (e : DropdownEvent), DropdownMain.step s e = DropdownAlt.step s e) ∧
    (∀ evs : List DropdownEvent,
      DropdownMain.run DropdownMain.init evs = DropdownAlt.run DropdownAlt.init evs) := by
  have hstep : ∀ (s : DropdownState) (e : DropdownEvent),
      DropdownMain.step s e = DropdownAlt.step s e := fun _ _ => rfl
  have hrun : ∀ (evs : List DropdownEvent) (s : DropdownState),
      DropdownMain.run s evs = DropdownAlt.run s evs := by
    intro evs
    induction evs with
    | nil => intro s; rfl
    | cons e es ih =>
      intro s
      show (let p := DropdownMain.step s e
            let q := DropdownMain.run p.1 es
            (q.1, p.2.toList ++ q.2)) =
           (let p := DropdownAlt.step s e
            let q := DropdownAlt.run p.1 es
            (q.1, p.2.toList ++ q.2))
      rw [hstep s e]
      exact congrArg (fun z => (z.1, (DropdownAlt.step s e).2.toList ++ z.2))
        (ih (DropdownAlt.step s e).1)
  exact ⟨rfl, rfl, hstep, fun evs => hrun evs DropdownMain.init⟩
